import Mathlib

/-!
Shallow embedding of the neovim-mcp remote-session layer.

The Go program talks to a running Neovim instance through the `nvim
--remote-expr` subprocess channel.  We model one subprocess invocation by an
oracle `Channel : String → Except (String × String) String`: for a given
expression text it either returns the raw standard output (`Except.ok`) or a
channel-level failure carrying the rendered run error and the captured
standard error (`Except.error`).  Every higher operation is translated from
the source on top of this oracle; operations that issue channel calls also
record the list of expression texts they issued, in order, so that claims
about which commands are sent can be stated.
-/

/-- Mirrors Go `strings.TrimSpace`: drop whitespace from both ends.  (Go trims
Unicode white space; `Char.isWhitespace` agrees on the ASCII cases that can
occur here.) -/
def trimSpace (s : String) : String :=
  String.mk (((s.data.dropWhile Char.isWhitespace).reverse.dropWhile Char.isWhitespace).reverse)

/-- Mirrors `strings.HasPrefix(s, c)` for a single-character pattern: true iff
the first character of `s` is `c`. -/
def startsWithChar (s : String) (c : Char) : Bool :=
  match s.data with
  | [] => false
  | d :: _ => d == c

/-- Core of `escapeVimString`: every single quote is doubled, character by
character (Go strings.ReplaceAll with the one-character single-quote pattern
and its doubled replacement). -/
def escapeQuotes : List Char → List Char
  | [] => []
  | c :: cs => if c = '\x27' then '\x27' :: '\x27' :: escapeQuotes cs else c :: escapeQuotes cs

/-- Translation of `escapeVimString` (client): escape single quotes for Vim
strings by doubling them. -/
def escapeVimString (s : String) : String :=
  String.mk (escapeQuotes s.data)

/-- Normalization step of `ExecuteCommand`: remove one leading colon if
present (Go `strings.HasPrefix(command, ":")` followed by `command[1:]`; the
colon is a one-byte character, so byte slicing and character slicing agree). -/
def normalizeCommand (command : String) : String :=
  match command.data with
  | [] => command
  | c :: rest => if c = ':' then String.mk rest else command

/-- One `nvim --server … --remote-expr` invocation, abstracted: either the raw
standard output, or a failure carrying (rendered run error, captured stderr). -/
def Channel : Type := String → Except (String × String) String

/-- Translation of `remoteExpr` (client): run the expression through the
channel; on success return the whitespace-trimmed standard output, on failure
wrap the run error and stderr into one message. -/
def remoteExpr (ch : Channel) (expr : String) : Except String String :=
  match ch expr with
  | Except.error ef => Except.error ("failed to execute expression: " ++ ef.1 ++ ", stderr: " ++ ef.2)
  | Except.ok out => Except.ok (trimSpace out)

/-- The expression `ExecuteCommand` sends first, clearing `v:errmsg`. -/
def clearErrmsgExpr : String := "execute(\x27let v:errmsg = \"\"\x27)"

/-- The expression `ExecuteCommand` sends last, re-reading `v:errmsg`. -/
def errmsgExpr : String := "v:errmsg"

/-- The capture expression `ExecuteCommand` sends for a normalized command:
the command is embedded in the single-quoted argument of execute() after
quote escaping. -/
def executeExprOf (normalized : String) : String :=
  "execute(\x27" ++ escapeVimString normalized ++ "\x27)"

/-- Result of an operation together with the channel calls it issued: `result`
is the value the Go function returns, `calls` lists the expression texts sent
over the channel, in order. -/
structure TraceResult where
  result : Except String String
  calls : List String

/-- Translation of `ExecuteCommand` (client): validate, normalize, then run
the clear → execute → check sequence over the channel.  A non-blank error
state after execution wins over the captured output; a failure of the final
`v:errmsg` read is ignored (the Go code only acts on `err == nil`).  Empty
trimmed output is replaced by a success message echoing the original
command. -/
def ExecuteCommand (ch : Channel) (command : String) : TraceResult :=
  if trimSpace command = "" then
    ⟨Except.error "command cannot be empty", []⟩
  else
    let normalizedCommand := normalizeCommand command
    match remoteExpr ch clearErrmsgExpr with
    | Except.error e =>
        ⟨Except.error ("failed to clear error message: " ++ e), [clearErrmsgExpr]⟩
    | Except.ok _ =>
      match remoteExpr ch (executeExprOf normalizedCommand) with
      | Except.error e =>
          ⟨Except.error ("failed to execute command: " ++ e),
            [clearErrmsgExpr, executeExprOf normalizedCommand]⟩
      | Except.ok output =>
        let calls := [clearErrmsgExpr, executeExprOf normalizedCommand, errmsgExpr]
        let finalOutput :=
          if trimSpace output = "" then "Command executed successfully: " ++ command else output
        match remoteExpr ch errmsgExpr with
        | Except.ok vimError =>
            if trimSpace vimError ≠ "" then
              ⟨Except.error ("vim error: " ++ vimError), calls⟩
            else
              ⟨Except.ok finalOutput, calls⟩
        | Except.error _ => ⟨Except.ok finalOutput, calls⟩

/-- Translation of the `QuickfixItem` record (client).  The Go field `Type`
is called `Typ` here because `Type` is reserved in Lean. -/
structure QuickfixItem where
  Filename : String
  Line : Int
  Column : Int
  Text : String
  Typ : String

/-- Loop body of `quickfixItemsToVimList`: the dictionary entries built for
one item, in the order the code appends them — `filename` (escaped) and
`lnum` always, `col` only when the column is positive, `text` (escaped)
always, `type` (verbatim) only when non-empty. -/
def quickfixItemParts (item : QuickfixItem) : List String :=
  let parts := ["\x27filename\x27: \x27" ++ escapeVimString item.Filename ++ "\x27"]
  let parts := parts ++ ["\x27lnum\x27: " ++ toString item.Line]
  let parts := if item.Column > 0 then parts ++ ["\x27col\x27: " ++ toString item.Column] else parts
  let parts := parts ++ ["\x27text\x27: \x27" ++ escapeVimString item.Text ++ "\x27"]
  let parts := if item.Typ ≠ "" then parts ++ ["\x27type\x27: \x27" ++ item.Typ ++ "\x27"] else parts
  parts

/-- Dictionary literal for one item: the parts joined with `", "` inside
braces. -/
def quickfixItemDict (item : QuickfixItem) : String :=
  "\x7b" ++ String.intercalate ", " (quickfixItemParts item) ++ "\x7d"

/-- Translation of `quickfixItemsToVimList` (client): one dictionary literal
per item, in input order, joined with `", "` inside brackets. -/
def quickfixItemsToVimList (items : List QuickfixItem) : String :=
  "[" ++ String.intercalate ", " (items.map quickfixItemDict) ++ "]"

/-- Translation of `SetQuickfixList` (client): run `call setqflist(…)` through
`ExecuteCommand`; the Go code keeps only the error, discarding the output. -/
def SetQuickfixList (ch : Channel) (items : List QuickfixItem) : TraceResult :=
  ExecuteCommand ch ("call setqflist(" ++ quickfixItemsToVimList items ++ ")")

/-- Translation of `OpenQuickfixWindow` (client): run `copen` through
`ExecuteCommand`, keeping only the error. -/
def OpenQuickfixWindow (ch : Channel) : TraceResult :=
  ExecuteCommand ch "copen"

/-- Result shape of an MCP tool handler: `mcp.NewToolResultError` or
`mcp.NewToolResultText`. -/
inductive CallToolResult where
  | errorResult (msg : String)
  | textResult (text : String)
deriving DecidableEq

/-- Translation of the `PopulateQuickfix` handler (tools), after argument
binding: the argument items are copied field by field into `QuickfixItem`
values (an identity copy here), the list is installed via `SetQuickfixList`,
and only then is the quickfix window opened.  A failure of the install step
aborts with its error before any window-open channel call; a failure of
`OpenQuickfixWindow` is only logged as a warning and the handler still
returns the success text.  The second component collects the channel calls
issued, in order. -/
def PopulateQuickfix (ch : Channel) (items : List QuickfixItem) :
    CallToolResult × List String :=
  let setRes := SetQuickfixList ch items
  match setRes.result with
  | Except.error e =>
      (CallToolResult.errorResult ("failed to set quickfix list: " ++ e), setRes.calls)
  | Except.ok _ =>
      let openRes := OpenQuickfixWindow ch
      (CallToolResult.textResult
          ("Successfully populated quickfix list with " ++ toString items.length ++ " items"),
        setRes.calls ++ openRes.calls)

/-- Expression sent by `GetBufferContext` for the file path. -/
def filePathExpr : String := "expand(\x27%:p\x27)"

/-- Expression sent by `GetBufferContext` for the cursor position. -/
def cursorExpr : String := "printf(\x27%d:%d\x27, line(\x27.\x27), col(\x27.\x27))"

/-- Expression sent by `GetBufferContext` for the mode. -/
def modeExpr : String := "mode()"

/-- Expression sent by `GetBufferContext` for the visual range. -/
def visualRangeExpr : String :=
  "printf(\x27%d:%d to %d:%d\x27, getpos(\x27v\x27)[1], getpos(\x27v\x27)[2], getpos(\x27.\x27)[1], getpos(\x27.\x27)[2])"

/-- The embedded Lua query `GetBufferContext` sends for the selected text
(the Go raw string, byte for byte: tabs and newlines included). -/
def selectedTextExpr : String :=
  "luaeval(\x27(function()\n\t\t\tlocal start_pos = vim.fn.getpos(\"v\")\n\t\t\tlocal end_pos = vim.fn.getpos(\".\")\n\t\t\tlocal start_line, start_col = start_pos[2], start_pos[3]\n\t\t\tlocal end_line, end_col = end_pos[2], end_pos[3]\n\n\t\t\t-- Ensure proper ordering\n\t\t\tif start_line > end_line or (start_line == end_line and start_col > end_col) then\n\t\t\t\tstart_line, end_line = end_line, start_line\n\t\t\t\tstart_col, end_col = end_col, start_col\n\t\t\tend\n\n\t\t\tlocal lines = vim.api.nvim_buf_get_lines(0, start_line - 1, end_line, false)\n\t\t\treturn table.concat(lines, \"\\\\n\")\n\t\tend)()\x27)"

/-- Expression sent by `GetBufferContext` for the current line. -/
def currentLineExpr : String := "getline(\x27.\x27)"

/-- Visual-mode test of `GetBufferContext` (line 182 of the client): mode
starts with `v`, or starts with `V`, or equals the Ctrl-V character. -/
def isVisualMode (mode : String) : Bool :=
  startsWithChar mode 'v' || startsWithChar mode 'V' || mode == "\x16"

/-- Translation of `GetBufferContext` (client): file path, cursor and mode
are read in order; then exactly one of the two groups follows, chosen by
`isVisualMode`: the visual-selection pair, or the current line.  Each field
is one `LABEL:value` line; the concatenation of the string builder is
reproduced verbatim. -/
def GetBufferContext (ch : Channel) : Except String String :=
  match remoteExpr ch filePathExpr with
  | Except.error e => Except.error ("failed to get file path: " ++ e)
  | Except.ok filePath =>
  match remoteExpr ch cursorExpr with
  | Except.error e => Except.error ("failed to get cursor position: " ++ e)
  | Except.ok cursor =>
  match remoteExpr ch modeExpr with
  | Except.error e => Except.error ("failed to get mode: " ++ e)
  | Except.ok mode =>
  let header :=
    "FILE_PATH:" ++ filePath ++ "\n" ++ "CURSOR:" ++ cursor ++ "\n" ++ "MODE:" ++ mode ++ "\n"
  if isVisualMode mode then
    match remoteExpr ch visualRangeExpr with
    | Except.error e => Except.error ("failed to get visual range: " ++ e)
    | Except.ok visualRange =>
    match remoteExpr ch selectedTextExpr with
    | Except.error e => Except.error ("failed to get selected text: " ++ e)
    | Except.ok selectedText =>
        Except.ok (header ++ "VISUAL_SELECTION:" ++ visualRange ++ "\n"
          ++ "SELECTED_TEXT:" ++ selectedText ++ "\n")
  else
    match remoteExpr ch currentLineExpr with
    | Except.error e => Except.error ("failed to get current line: " ++ e)
    | Except.ok currentLine => Except.ok (header ++ "CURRENT_LINE:" ++ currentLine ++ "\n")

/-- Environment and filesystem the session locator consults.  Go os.Getenv
yields `""` for an unset variable, so unset is modelled as the empty string;
`userHomeDir` is the value of os.UserHomeDir (whose error the code
discards); `fileExists` says whether os.Stat reports the path as existing. -/
structure Env where
  nvim : String
  xdgCacheHome : String
  userHomeDir : String
  getwd : Except String String
  fileExists : String → Bool

/-- Model of Go `filepath.Join` on two elements, for inputs that are already
clean (no trailing separator on the first element, which is how the source
uses it): empty elements are dropped, non-empty ones joined with `/`. -/
def filepathJoin (a b : String) : String :=
  if a = "" then b else if b = "" then a else a ++ "/" ++ b

/-- Model of Go `filepath.Base` on a Unix path: `"."` for the empty path,
otherwise strip trailing slashes and keep what follows the last remaining
slash, with `"/"` when nothing remains. -/
def filepathBase (path : String) : String :=
  if path = "" then "."
  else
    let stripped := (path.data.reverse.dropWhile (fun c => c = '/')).reverse
    if stripped = [] then "/"
    else String.mk (stripped.reverse.takeWhile (fun c => c ≠ '/')).reverse

/-- Translation of `findNvimSocket` (client): the `NVIM` override wins when
set and existing; otherwise the path
`<cache-root>/nvim/<basename(cwd)>.sock` is derived (cache root from
`XDG_CACHE_HOME`, else `<home>/.cache`) and accepted only if it exists;
otherwise the empty string signals failure. -/
def findNvimSocket (env : Env) : String :=
  if env.nvim ≠ "" ∧ env.fileExists env.nvim = true then env.nvim
  else
    match env.getwd with
    | Except.error _ => ""
    | Except.ok pwd =>
      let cacheDir :=
        if env.xdgCacheHome = "" then filepathJoin env.userHomeDir ".cache" else env.xdgCacheHome
      let sockDir := filepathJoin cacheDir "nvim"
      let projBase := filepathBase pwd
      let socketPath := filepathJoin sockDir (projBase ++ ".sock")
      if env.fileExists socketPath = true then socketPath else ""

/-- Translation of the `NvimClient` record: just the socket path. -/
structure NvimClient where
  socketPath : String
deriving DecidableEq

/-- Translation of `NewNvimClient` (client): auto-detect the socket; an empty
result is the session-not-found failure. -/
def NewNvimClient (env : Env) : Except String NvimClient :=
  let socketPath := findNvimSocket env
  if socketPath = "" then Except.error "no Neovim instance found for current directory"
  else Except.ok ⟨socketPath⟩

/-- Channel stub for the remote-error witness: the error-state read reports a
vim error, every other expression succeeds with empty output. -/
def errStateStub : Channel := fun e =>
  if e = errmsgExpr then Except.ok "E492: Not an editor command" else Except.ok ""

/-- Channel stub for the ignored-check witness: the error-state read fails at
the channel level, every other expression succeeds. -/
def checkFailStub : Channel := fun e =>
  if e = errmsgExpr then Except.error ("exit status 1", "boom") else Except.ok "output text"

/-- Channel stub for the success-message witness: every expression succeeds
with empty output. -/
def emptyOutputStub : Channel := fun _ => Except.ok ""

/-- Serializer variant following the specification text, for comparison with
the code: identical to `quickfixItemParts` except that the escape rule is
applied uniformly to the `type` field as well. -/
def quickfixItemPartsUniform (item : QuickfixItem) : List String :=
  let parts := ["\x27filename\x27: \x27" ++ escapeVimString item.Filename ++ "\x27"]
  let parts := parts ++ ["\x27lnum\x27: " ++ toString item.Line]
  let parts := if item.Column > 0 then parts ++ ["\x27col\x27: " ++ toString item.Column] else parts
  let parts := parts ++ ["\x27text\x27: \x27" ++ escapeVimString item.Text ++ "\x27"]
  let parts :=
    if item.Typ ≠ "" then parts ++ ["\x27type\x27: \x27" ++ escapeVimString item.Typ ++ "\x27"]
    else parts
  parts

/-- List literal built from the uniformly escaping parts. -/
def quickfixItemsToVimListUniform (items : List QuickfixItem) : String :=
  "[" ++ String.intercalate ", "
    (items.map (fun item =>
      "\x7b" ++ String.intercalate ", " (quickfixItemPartsUniform item) ++ "\x7d")) ++ "]"

/-- Channel stub that fails every call: installing the quickfix list fails at
its very first (clear) step. -/
def allFailStub : Channel := fun _ => Except.error ("exit status 1", "boom")

/-- Channel stub that fails exactly the window-open capture expression and
accepts everything else with empty output. -/
def copenFailStub : Channel := fun e =>
  if e = executeExprOf "copen" then Except.error ("exit status 1", "boom") else Except.ok ""

/-- Channel stub for the visual branch of the context extractor: the mode
query answers with a visual mode, everything else answers with a marker. -/
def visualModeStub : Channel := fun e =>
  if e = modeExpr then Except.ok "v" else Except.ok "x"

/-- Channel stub for the non-visual branch: the mode query answers with
normal mode, everything else answers with a marker. -/
def normalModeStub : Channel := fun e =>
  if e = modeExpr then Except.ok "n" else Except.ok "x"

/-- Strings are determined by their character lists. -/
lemma string_eq_of_data (s t : String) (h : s.data = t.data) : s = t := by
  cases s; cases t; exact congrArg String.mk h

/-- A list cannot have a prefix that is incomparable with one of its other
prefixes. -/
lemma not_prefix_of_append (p k : List Char) (hp : ¬ p <+: k) (hk : ¬ k <+: p)
    (x : List Char) : ¬ p <+: (k ++ x) := by
  rintro ⟨t, ht⟩
  rcases List.append_eq_append_iff.mp ht with ⟨a, ha, _⟩ | ⟨a, ha, _⟩
  · exact hp ⟨a, ha.symm⟩
  · exact hk ⟨a, ha.symm⟩

/-- String version of `not_prefix_of_append`: a constant label cannot be a
prefix of a line that starts with an incomparable constant label. -/
lemma not_strPrefix_append (p k x : String) (hp : ¬ (p.data <+: k.data))
    (hk : ¬ (k.data <+: p.data)) : ¬ (p.data <+: (k ++ x).data) := by
  rw [String.data_append]
  exact not_prefix_of_append _ _ hp hk _

/-- Two strings that extend incomparable constant heads are different. -/
lemma str_append_ne (p k a b : String) (hp : ¬ (p.data <+: k.data))
    (hk : ¬ (k.data <+: p.data)) : p ++ a ≠ k ++ b := by
  intro h
  have hd : p.data ++ a.data = k.data ++ b.data := by
    simpa [String.data_append] using congrArg String.data h
  exact not_prefix_of_append _ _ hp hk b.data ⟨a.data, hd⟩

/-- A string with a non-empty constant head is not empty. -/
lemma append_ne_empty (p a : String) (hp : p.data ≠ []) : p ++ a ≠ "" := by
  intro h
  have hd : p.data ++ a.data = [] := by
    simpa [String.data_append] using congrArg String.data h
  exact hp (List.append_eq_nil.mp hd).1

/-- The escape loop doubles every single quote and maps every other
character to itself. -/
lemma escapeQuotes_eq_flatMap (l : List Char) :
    escapeQuotes l = l.flatMap (fun c => if c = '\x27' then ['\x27', '\x27'] else [c]) := by
  induction l with
  | nil => rfl
  | cons c cs ih =>
    by_cases hc : c = '\x27' <;> simp [escapeQuotes, hc, ih]

/-- The escape loop leaves quote-free strings unchanged. -/
lemma escapeQuotes_of_no_quote (l : List Char) (h : '\x27' ∉ l) : escapeQuotes l = l := by
  induction l with
  | nil => rfl
  | cons c cs ih =>
    have hc : c ≠ '\x27' := fun hc => h (hc ▸ List.mem_cons_self c cs)
    simp only [List.mem_cons, not_or] at h
    simp [escapeQuotes, hc, ih h.2]

/-- C1: for every command that passes validation, `ExecuteCommand` runs the
clear → execute → check sequence; whenever the re-read of `v:errmsg`
succeeds with a non-blank trimmed value, the function returns the vim error
carrying that value instead of the captured output, even though the execute
step itself succeeded. -/
theorem executeCommand_remote_error_wins (ch : Channel) (command c0 out v : String)
    (hval : trimSpace command ≠ "")
    (hclear : remoteExpr ch clearErrmsgExpr = Except.ok c0)
    (hexec : remoteExpr ch (executeExprOf (normalizeCommand command)) = Except.ok out)
    (hcheck : remoteExpr ch errmsgExpr = Except.ok v)
    (hne : trimSpace v ≠ "") :
    (ExecuteCommand ch command).result = Except.error ("vim error: " ++ v) ∧
    (ExecuteCommand ch command).calls =
      [clearErrmsgExpr, executeExprOf (normalizeCommand command), errmsgExpr] := by
  unfold ExecuteCommand
  rw [if_neg hval]
  simp only [hclear, hexec, hcheck]
  simp [hne]

/-- Witness for C1 at a concrete channel and command. -/
theorem executeCommand_remote_error_wins_witness :
    (ExecuteCommand errStateStub "set number").result =
      Except.error ("vim error: " ++ "E492: Not an editor command") :=
  (executeCommand_remote_error_wins errStateStub "set number" "" "" "E492: Not an editor command"
    (by decide) rfl rfl rfl (by decide)).1

/-- C9: if the post-execution read of `v:errmsg` itself fails at the channel
level, `ExecuteCommand` ignores that failure and still returns the captured
output (or the synthesized success message); the failure of this third read
is never surfaced. -/
theorem executeCommand_ignores_check_failure (ch : Channel) (command c0 out e : String)
    (hval : trimSpace command ≠ "")
    (hclear : remoteExpr ch clearErrmsgExpr = Except.ok c0)
    (hexec : remoteExpr ch (executeExprOf (normalizeCommand command)) = Except.ok out)
    (hcheck : remoteExpr ch errmsgExpr = Except.error e) :
    (ExecuteCommand ch command).result =
      Except.ok
        (if trimSpace out = "" then "Command executed successfully: " ++ command else out) := by
  unfold ExecuteCommand
  rw [if_neg hval]
  simp only [hclear, hexec, hcheck]

/-- Witness for C9 at a concrete channel and command. -/
theorem executeCommand_ignores_check_failure_witness :
    (ExecuteCommand checkFailStub "echo 1").result = Except.ok "output text" :=
  executeCommand_ignores_check_failure checkFailStub "echo 1" "output text" "output text"
    "failed to execute expression: exit status 1, stderr: boom" (by decide) rfl rfl rfl

/-- C6: for every accepted command whose execution reports no remote error,
`ExecuteCommand` returns a synthesized success message echoing the original
(non-normalized) command when the captured output trims to empty — never an
empty string — and returns the captured output verbatim otherwise. -/
theorem executeCommand_success_output (ch : Channel) (command c0 out : String)
    (hval : trimSpace command ≠ "")
    (hclear : remoteExpr ch clearErrmsgExpr = Except.ok c0)
    (hexec : remoteExpr ch (executeExprOf (normalizeCommand command)) = Except.ok out)
    (hnoerr : ∀ v, remoteExpr ch errmsgExpr = Except.ok v → trimSpace v = "") :
    (trimSpace out = "" →
      (ExecuteCommand ch command).result =
        Except.ok ("Command executed successfully: " ++ command) ∧
      ("Command executed successfully: " ++ command ≠ "") ∧
      (∃ p, p ++ command = "Command executed successfully: " ++ command)) ∧
    (trimSpace out ≠ "" → (ExecuteCommand ch command).result = Except.ok out) := by
  have hres : (ExecuteCommand ch command).result =
      Except.ok
        (if trimSpace out = "" then "Command executed successfully: " ++ command else out) := by
    unfold ExecuteCommand
    rw [if_neg hval]
    simp only [hclear, hexec]
    cases hcheck : remoteExpr ch errmsgExpr with
    | error e => simp [hcheck]
    | ok v =>
      have hv : trimSpace v = "" := hnoerr v hcheck
      simp [hcheck, hv]
  constructor
  · intro hout
    rw [hres, if_pos hout]
    exact ⟨rfl, append_ne_empty "Command executed successfully: " command (by decide),
      "Command executed successfully: ", rfl⟩
  · intro hout
    rw [hres, if_neg hout]

/-- Witness for C6 at a concrete channel and command: empty output yields the
synthesized message echoing the command, which is non-empty. -/
theorem executeCommand_success_output_witness :
    (ExecuteCommand emptyOutputStub "set number").result =
      Except.ok ("Command executed successfully: " ++ "set number") ∧
    ("Command executed successfully: " ++ "set number" ≠ "") := by
  have h := (executeCommand_success_output emptyOutputStub "set number" "" ""
    (by decide) rfl rfl (fun v hv => by
      injection (show (Except.ok "" : Except String String) = Except.ok v from hv) with hv2
      rw [← hv2]
      rfl)).1 (by decide)
  exact ⟨h.1, h.2.1⟩

/-- Prepending a colon adds a colon to the character list. -/
lemma colon_append_data (c : String) : (":" ++ c).data = ':' :: c.data := by
  simp [String.data_append]

/-- Normalization removes exactly the colon that was prepended. -/
lemma normalizeCommand_colon_append (c : String) : normalizeCommand (":" ++ c) = c := by
  unfold normalizeCommand
  rw [colon_append_data]
  simp

/-- Normalization leaves a command alone when its first character is not a
colon. -/
lemma normalizeCommand_of_no_colon (c : String) (hc : startsWithChar c ':' = false) :
    normalizeCommand c = c := by
  unfold normalizeCommand
  unfold startsWithChar at hc
  match hd : c.data with
  | [] => rfl
  | d :: rest =>
    rw [hd] at hc
    have hne : d ≠ ':' := by simpa using hc
    simp [hne]

/-- After a successful clear step, the first two channel calls of
`ExecuteCommand` are the clear expression and the capture expression for the
normalized command. -/
lemma executeCommand_calls_take_two (ch : Channel) (command c0 : String)
    (hval : trimSpace command ≠ "")
    (hclear : remoteExpr ch clearErrmsgExpr = Except.ok c0) :
    (ExecuteCommand ch command).calls.take 2 =
      [clearErrmsgExpr, executeExprOf (normalizeCommand command)] := by
  unfold ExecuteCommand
  rw [if_neg hval]
  simp only [hclear]
  cases hexec : remoteExpr ch (executeExprOf (normalizeCommand command)) with
  | error e => simp [hexec]
  | ok out =>
    cases hcheck : remoteExpr ch errmsgExpr with
    | error e => simp [hexec, hcheck]
    | ok v =>
      by_cases hv : trimSpace v ≠ "" <;> simp [hexec, hcheck, hv]

/-- C7: for a command whose first character is not a colon, prefixing one
colon changes nothing about what is transmitted: both the prefixed and the
bare command normalize to the same text, and in both cases the execute step
transmits the same capture expression right after the clear expression. -/
theorem executeCommand_strips_one_colon (ch : Channel) (c c0 : String)
    (hc : startsWithChar c ':' = false)
    (hval : trimSpace c ≠ "") (hvalColon : trimSpace (":" ++ c) ≠ "")
    (hclear : remoteExpr ch clearErrmsgExpr = Except.ok c0) :
    normalizeCommand (":" ++ c) = c ∧ normalizeCommand c = c ∧
    (ExecuteCommand ch (":" ++ c)).calls.take 2 = [clearErrmsgExpr, executeExprOf c] ∧
    (ExecuteCommand ch c).calls.take 2 = [clearErrmsgExpr, executeExprOf c] := by
  have h1 := normalizeCommand_colon_append c
  have h2 := normalizeCommand_of_no_colon c hc
  refine ⟨h1, h2, ?_, ?_⟩
  · have := executeCommand_calls_take_two ch (":" ++ c) c0 hvalColon hclear
    rwa [h1] at this
  · have := executeCommand_calls_take_two ch c c0 hval hclear
    rwa [h2] at this

/-- Witness for C7 at the spec example: `:set number` and `set number` both
transmit the capture expression for `set number`. -/
theorem executeCommand_strips_one_colon_witness :
    (ExecuteCommand emptyOutputStub (":" ++ "set number")).calls.take 2 =
      [clearErrmsgExpr, executeExprOf "set number"] ∧
    (ExecuteCommand emptyOutputStub "set number").calls.take 2 =
      [clearErrmsgExpr, executeExprOf "set number"] := by
  have h := executeCommand_strips_one_colon emptyOutputStub "set number" ""
    (by decide) (by decide) (by decide) rfl
  exact ⟨h.2.2.1, h.2.2.2⟩

/-- C10: normalization strips a colon only in the very first position — any
command whose first character is not a colon is transmitted unchanged, so a
command with whitespace before the colon keeps its colon (while still
passing the non-blank validation), and a command starting with two colons
keeps one of them. -/
theorem normalization_only_first_char (ch : Channel) (c0 : String)
    (hclear : remoteExpr ch clearErrmsgExpr = Except.ok c0) :
    (∀ c : String, startsWithChar c ':' = false → normalizeCommand c = c) ∧
    (trimSpace "  :w" ≠ "" ∧ normalizeCommand "  :w" = "  :w" ∧
      (ExecuteCommand ch "  :w").calls.take 2 = [clearErrmsgExpr, "execute(\x27  :w\x27)"]) ∧
    (normalizeCommand "::w" = ":w" ∧
      (ExecuteCommand ch "::w").calls.take 2 = [clearErrmsgExpr, "execute(\x27:w\x27)"]) := by
  refine ⟨fun c hc => normalizeCommand_of_no_colon c hc, ⟨by decide, by decide, ?_⟩,
    by decide, ?_⟩
  · exact (executeCommand_calls_take_two ch "  :w" c0 (by decide) hclear).trans (by decide)
  · exact (executeCommand_calls_take_two ch "::w" c0 (by decide) hclear).trans (by decide)

/-- Witness for C10 at a concrete channel: the whitespace-prefixed command
keeps its colon in the transmitted capture expression, the double-colon
command keeps exactly one. -/
theorem normalization_only_first_char_witness :
    (ExecuteCommand emptyOutputStub "  :w").calls.take 2 =
      [clearErrmsgExpr, "execute(\x27  :w\x27)"] ∧
    (ExecuteCommand emptyOutputStub "::w").calls.take 2 =
      [clearErrmsgExpr, "execute(\x27:w\x27)"] := by
  have h := normalization_only_first_char emptyOutputStub "" rfl
  exact ⟨h.2.1.2.2, h.2.2.2⟩

/-- Normal form of the per-item dictionary entries: base entries plus the two
conditional ones in their fixed positions. -/
lemma quickfixItemParts_eq (item : QuickfixItem) :
    quickfixItemParts item =
      ["\x27filename\x27: \x27" ++ escapeVimString item.Filename ++ "\x27",
        "\x27lnum\x27: " ++ toString item.Line]
      ++ (if item.Column > 0 then ["\x27col\x27: " ++ toString item.Column] else [])
      ++ ["\x27text\x27: \x27" ++ escapeVimString item.Text ++ "\x27"]
      ++ (if item.Typ ≠ "" then ["\x27type\x27: \x27" ++ item.Typ ++ "\x27"] else []) := by
  unfold quickfixItemParts
  by_cases h1 : item.Column > 0 <;> by_cases h2 : item.Typ ≠ "" <;> simp [h1, h2]

/-- A string beginning with one constant head differs from a string beginning
with an incomparable constant head. -/
lemma ne_of_incomp_heads (p k s t : String) (hs : p.data <+: s.data) (ht : k.data <+: t.data)
    (hp : ¬ (p.data <+: k.data)) (hk : ¬ (k.data <+: p.data)) : s ≠ t := by
  intro h
  subst h
  rcases hs with ⟨u, hu⟩
  rcases ht with ⟨w, hw⟩
  rw [← hw] at hu
  rcases List.append_eq_append_iff.mp hu with ⟨a, ha, _⟩ | ⟨a, ha, _⟩
  · exact hp ⟨a, ha.symm⟩
  · exact hk ⟨a, ha.symm⟩

/-- A string is a prefix of itself extended once. -/
lemma strPrefix_append (p a : String) : p.data <+: (p ++ a).data :=
  ⟨a.data, by simp [String.data_append]⟩

/-- A string is a prefix of itself extended twice. -/
lemma strPrefix_append2 (p a b : String) : p.data <+: (p ++ a ++ b).data :=
  ⟨a.data ++ b.data, by simp [String.data_append]⟩

/-- The filename entry is always present. -/
lemma filename_part_mem (item : QuickfixItem) :
    ("\x27filename\x27: \x27" ++ escapeVimString item.Filename ++ "\x27") ∈
      quickfixItemParts item := by
  rw [quickfixItemParts_eq]
  split_ifs <;> simp

/-- The lnum entry is always present. -/
lemma lnum_part_mem (item : QuickfixItem) :
    ("\x27lnum\x27: " ++ toString item.Line) ∈ quickfixItemParts item := by
  rw [quickfixItemParts_eq]
  split_ifs <;> simp

/-- The text entry is always present. -/
lemma text_part_mem (item : QuickfixItem) :
    ("\x27text\x27: \x27" ++ escapeVimString item.Text ++ "\x27") ∈ quickfixItemParts item := by
  rw [quickfixItemParts_eq]
  split_ifs <;> simp

/-- The col entry is present exactly when the column is positive. -/
lemma col_part_mem_iff (item : QuickfixItem) :
    (("\x27col\x27: " ++ toString item.Column) ∈ quickfixItemParts item) ↔ item.Column > 0 := by
  rw [quickfixItemParts_eq]
  constructor
  · intro hmem
    by_contra hcol
    rw [if_neg hcol] at hmem
    have hf := ne_of_incomp_heads "\x27col\x27: " "\x27filename\x27: \x27"
      ("\x27col\x27: " ++ toString item.Column)
      ("\x27filename\x27: \x27" ++ escapeVimString item.Filename ++ "\x27")
      (strPrefix_append _ _) (strPrefix_append2 _ _ _) (by decide) (by decide)
    have hl := ne_of_incomp_heads "\x27col\x27: " "\x27lnum\x27: "
      ("\x27col\x27: " ++ toString item.Column) ("\x27lnum\x27: " ++ toString item.Line)
      (strPrefix_append _ _) (strPrefix_append _ _) (by decide) (by decide)
    have ht := ne_of_incomp_heads "\x27col\x27: " "\x27text\x27: \x27"
      ("\x27col\x27: " ++ toString item.Column)
      ("\x27text\x27: \x27" ++ escapeVimString item.Text ++ "\x27")
      (strPrefix_append _ _) (strPrefix_append2 _ _ _) (by decide) (by decide)
    have hy := ne_of_incomp_heads "\x27col\x27: " "\x27type\x27: \x27"
      ("\x27col\x27: " ++ toString item.Column)
      ("\x27type\x27: \x27" ++ item.Typ ++ "\x27")
      (strPrefix_append _ _) (strPrefix_append2 _ _ _) (by decide) (by decide)
    split_ifs at hmem <;> simp only [List.nil_append, List.mem_append, List.mem_cons,
      List.not_mem_nil, or_false, List.mem_singleton] at hmem <;> tauto
  · intro hcol
    rw [if_pos hcol]
    simp

/-- The type entry is present exactly when the type is non-empty, and it
carries the type text verbatim. -/
lemma type_part_mem_iff (item : QuickfixItem) :
    (("\x27type\x27: \x27" ++ item.Typ ++ "\x27") ∈ quickfixItemParts item) ↔ item.Typ ≠ "" := by
  rw [quickfixItemParts_eq]
  constructor
  · intro hmem
    by_contra hty
    rw [if_neg (show ¬ (item.Typ ≠ "") from fun hne => hne hty)] at hmem
    have hf := ne_of_incomp_heads "\x27type\x27: \x27" "\x27filename\x27: \x27"
      ("\x27type\x27: \x27" ++ item.Typ ++ "\x27")
      ("\x27filename\x27: \x27" ++ escapeVimString item.Filename ++ "\x27")
      (strPrefix_append2 _ _ _) (strPrefix_append2 _ _ _) (by decide) (by decide)
    have hl := ne_of_incomp_heads "\x27type\x27: \x27" "\x27lnum\x27: "
      ("\x27type\x27: \x27" ++ item.Typ ++ "\x27") ("\x27lnum\x27: " ++ toString item.Line)
      (strPrefix_append2 _ _ _) (strPrefix_append _ _) (by decide) (by decide)
    have hc := ne_of_incomp_heads "\x27type\x27: \x27" "\x27col\x27: "
      ("\x27type\x27: \x27" ++ item.Typ ++ "\x27") ("\x27col\x27: " ++ toString item.Column)
      (strPrefix_append2 _ _ _) (strPrefix_append _ _) (by decide) (by decide)
    have ht := ne_of_incomp_heads "\x27type\x27: \x27" "\x27text\x27: \x27"
      ("\x27type\x27: \x27" ++ item.Typ ++ "\x27")
      ("\x27text\x27: \x27" ++ escapeVimString item.Text ++ "\x27")
      (strPrefix_append2 _ _ _) (strPrefix_append2 _ _ _) (by decide) (by decide)
    split_ifs at hmem <;> simp only [List.nil_append, List.mem_append, List.mem_cons,
      List.not_mem_nil, or_false, List.mem_singleton] at hmem <;> tauto
  · intro hty
    rw [if_pos hty]
    simp

/-- C3: the produced list literal has exactly one dictionary per item, in
input order; in each dictionary the filename, lnum and text entries are
always present, the col entry is present exactly when the column is
positive, the type entry exactly when the type is non-empty; and a filename
containing a single quote serializes with the quote doubled. -/
theorem quickfixList_structure (items : List QuickfixItem) :
    quickfixItemsToVimList items =
      "[" ++ String.intercalate ", " (items.map quickfixItemDict) ++ "]" ∧
    (items.map quickfixItemDict).length = items.length ∧
    (∀ item : QuickfixItem,
      quickfixItemDict item =
        "\x7b" ++ String.intercalate ", " (quickfixItemParts item) ++ "\x7d" ∧
      ("\x27filename\x27: \x27" ++ escapeVimString item.Filename ++ "\x27") ∈
        quickfixItemParts item ∧
      ("\x27lnum\x27: " ++ toString item.Line) ∈ quickfixItemParts item ∧
      ("\x27text\x27: \x27" ++ escapeVimString item.Text ++ "\x27") ∈ quickfixItemParts item ∧
      (("\x27col\x27: " ++ toString item.Column) ∈ quickfixItemParts item ↔ item.Column > 0) ∧
      (("\x27type\x27: \x27" ++ item.Typ ++ "\x27") ∈ quickfixItemParts item ↔ item.Typ ≠ "")) ∧
    quickfixItemsToVimList [⟨"it\x27s.go", 3, 0, "m", ""⟩] =
      "[\x7b\x27filename\x27: \x27it\x27\x27s.go\x27, \x27lnum\x27: 3, \x27text\x27: \x27m\x27\x7d]" := by
  refine ⟨rfl, items.length_map quickfixItemDict, fun item => ?_, by decide⟩
  exact ⟨rfl, filename_part_mem item, lnum_part_mem item, text_part_mem item,
    col_part_mem_iff item, type_part_mem_iff item⟩

/-- Counterexample for C2: for an item whose type contains a single quote,
the serializer emits the type value verbatim — the quote is not doubled —
so the escape rule is not applied to every string field; the output differs
from the uniformly escaping serializer the specification describes. -/
theorem quickfix_type_unescaped_cex :
    ("\x27type\x27: \x27\x27\x27" ∈ quickfixItemParts ⟨"f", 1, 0, "t", "\x27"⟩) ∧
    ("\x27type\x27: \x27\x27\x27\x27" ∉ quickfixItemParts ⟨"f", 1, 0, "t", "\x27"⟩) ∧
    quickfixItemsToVimList [⟨"f", 1, 0, "t", "\x27"⟩] ≠
      quickfixItemsToVimListUniform [⟨"f", 1, 0, "t", "\x27"⟩] ∧
    quickfixItemsToVimList [⟨"f", 1, 0, "t", "\x27"⟩] =
      "[\x7b\x27filename\x27: \x27f\x27, \x27lnum\x27: 1, \x27text\x27: \x27t\x27, \x27type\x27: \x27\x27\x27\x7d]" := by
  refine ⟨by decide, by decide, by decide, by decide⟩

/-- C2 as amended: the single-quote-doubling escape rule is applied to the
filename and text fields, and it doubles every single quote while leaving
every other character unchanged; the type field, however, is emitted
verbatim, without escaping. -/
theorem quickfix_escape_coverage (item : QuickfixItem) :
    ("\x27filename\x27: \x27" ++ escapeVimString item.Filename ++ "\x27") ∈
      quickfixItemParts item ∧
    ("\x27text\x27: \x27" ++ escapeVimString item.Text ++ "\x27") ∈ quickfixItemParts item ∧
    (item.Typ ≠ "" → ("\x27type\x27: \x27" ++ item.Typ ++ "\x27") ∈ quickfixItemParts item) ∧
    (∀ s : String, (escapeVimString s).data =
      s.data.flatMap (fun c => if c = '\x27' then ['\x27', '\x27'] else [c])) ∧
    (∀ s : String, '\x27' ∉ s.data → escapeVimString s = s) := by
  refine ⟨filename_part_mem item, text_part_mem item,
    fun hty => (type_part_mem_iff item).mpr hty,
    fun s => escapeQuotes_eq_flatMap s.data,
    fun s hs => ?_⟩
  unfold escapeVimString
  rw [escapeQuotes_of_no_quote s.data hs]

/-- Witness for C2 as amended, at an item with a non-empty type: the type
entry appears verbatim, and a quote-free string is left unchanged by the
escape. -/
theorem quickfix_escape_coverage_witness :
    (("E" : String) ≠ "") ∧
    (("\x27type\x27: \x27" ++ "E" ++ "\x27") ∈ quickfixItemParts ⟨"f", 1, 0, "t", "E"⟩) ∧
    ('\x27' ∉ ("abc" : String).data ∧ escapeVimString "abc" = "abc") := by
  have h := quickfix_escape_coverage ⟨"f", 1, 0, "t", "E"⟩
  exact ⟨by decide, h.2.2.1 (by decide), by decide, h.2.2.2.2 "abc" (by decide)⟩

/-- C4: if installing the quickfix list fails, the whole handler fails with
that error and issues no channel call beyond those of the install step — in
particular the window-open command is never sent; if installing succeeds,
the handler returns the success text even when the window-open step fails,
which is surfaced only as a warning. -/
theorem populateQuickfix_failure_modes (ch : Channel) (items : List QuickfixItem) :
    (∀ e, (SetQuickfixList ch items).result = Except.error e →
      PopulateQuickfix ch items =
        (CallToolResult.errorResult ("failed to set quickfix list: " ++ e),
          (SetQuickfixList ch items).calls)) ∧
    (∀ r, (SetQuickfixList ch items).result = Except.ok r →
      PopulateQuickfix ch items =
        (CallToolResult.textResult
            ("Successfully populated quickfix list with " ++ toString items.length ++ " items"),
          (SetQuickfixList ch items).calls ++ (OpenQuickfixWindow ch).calls)) ∧
    (∀ r e, (SetQuickfixList ch items).result = Except.ok r →
      (OpenQuickfixWindow ch).result = Except.error e →
      (PopulateQuickfix ch items).1 =
        CallToolResult.textResult
          ("Successfully populated quickfix list with " ++ toString items.length ++ " items")) := by
  refine ⟨fun e he => ?_, fun r hr => ?_, fun r e hr _ => ?_⟩
  · unfold PopulateQuickfix
    simp only [he]
  · unfold PopulateQuickfix
    simp only [hr]
  · unfold PopulateQuickfix
    simp only [hr]

/-- Witness for C4 at concrete channels: a failing install yields the install
error and only the clear call was issued; a failing window-open step still
yields the success text. -/
theorem populateQuickfix_failure_modes_witness :
    PopulateQuickfix allFailStub [] =
      (CallToolResult.errorResult
          ("failed to set quickfix list: " ++
            "failed to clear error message: failed to execute expression: exit status 1, stderr: boom"),
        [clearErrmsgExpr]) ∧
    (OpenQuickfixWindow copenFailStub).result =
      Except.error "failed to execute command: failed to execute expression: exit status 1, stderr: boom" ∧
    (PopulateQuickfix copenFailStub []).1 =
      CallToolResult.textResult ("Successfully populated quickfix list with " ++ toString (0 : Nat) ++ " items") := by
  refine ⟨?_, rfl, ?_⟩
  · have h := (populateQuickfix_failure_modes allFailStub []).1
      "failed to clear error message: failed to execute expression: exit status 1, stderr: boom" rfl
    exact h.trans (by rfl)
  · exact (populateQuickfix_failure_modes copenFailStub []).2.2 _ _ rfl rfl

/-- C5: the group of fields emitted by `GetBufferContext` is determined
solely by the mode value: a visual-family mode yields the VISUAL_SELECTION
and SELECTED_TEXT lines and no line labelled CURRENT_LINE, any other mode
yields the CURRENT_LINE line and no line labelled with either visual label —
exactly one of the two groups is present. -/
theorem getBufferContext_mode_branch (ch : Channel) (fp cur m : String)
    (hfp : remoteExpr ch filePathExpr = Except.ok fp)
    (hcur : remoteExpr ch cursorExpr = Except.ok cur)
    (hm : remoteExpr ch modeExpr = Except.ok m) :
    (∀ vr st, isVisualMode m = true →
      remoteExpr ch visualRangeExpr = Except.ok vr →
      remoteExpr ch selectedTextExpr = Except.ok st →
      GetBufferContext ch =
        Except.ok (String.join ((["FILE_PATH:" ++ fp, "CURSOR:" ++ cur, "MODE:" ++ m,
          "VISUAL_SELECTION:" ++ vr, "SELECTED_TEXT:" ++ st]).map (fun l => l ++ "\n"))) ∧
      (∀ l ∈ ["FILE_PATH:" ++ fp, "CURSOR:" ++ cur, "MODE:" ++ m,
          "VISUAL_SELECTION:" ++ vr, "SELECTED_TEXT:" ++ st],
        ¬ (("CURRENT_LINE:" : String).data <+: l.data))) ∧
    (∀ cl, isVisualMode m = false →
      remoteExpr ch currentLineExpr = Except.ok cl →
      GetBufferContext ch =
        Except.ok (String.join ((["FILE_PATH:" ++ fp, "CURSOR:" ++ cur, "MODE:" ++ m,
          "CURRENT_LINE:" ++ cl]).map (fun l => l ++ "\n"))) ∧
      (∀ l ∈ ["FILE_PATH:" ++ fp, "CURSOR:" ++ cur, "MODE:" ++ m, "CURRENT_LINE:" ++ cl],
        ¬ (("VISUAL_SELECTION:" : String).data <+: l.data) ∧
        ¬ (("SELECTED_TEXT:" : String).data <+: l.data))) := by
  constructor
  · intro vr st hvis hvr hst
    constructor
    · unfold GetBufferContext
      simp only [hfp, hcur, hm, hvis, hvr, hst, if_true]
      exact congrArg Except.ok (string_eq_of_data _ _
        (by simp [String.join, String.data_append, List.append_assoc]))
    · intro l hl
      simp only [List.mem_cons, List.not_mem_nil, or_false] at hl
      rcases hl with rfl | rfl | rfl | rfl | rfl <;>
        exact not_strPrefix_append _ _ _ (by decide) (by decide)
  · intro cl hvis hcl
    constructor
    · unfold GetBufferContext
      simp only [hfp, hcur, hm, hvis, hcl, if_false, Bool.false_eq_true]
      exact congrArg Except.ok (string_eq_of_data _ _
        (by simp [String.join, String.data_append, List.append_assoc]))
    · intro l hl
      simp only [List.mem_cons, List.not_mem_nil, or_false] at hl
      rcases hl with rfl | rfl | rfl | rfl <;>
        exact ⟨not_strPrefix_append _ _ _ (by decide) (by decide),
          not_strPrefix_append _ _ _ (by decide) (by decide)⟩

/-- Witness for C5 at the two concrete channels: visual mode produces the two
selection lines and no CURRENT_LINE line, normal mode produces the
CURRENT_LINE line. -/
theorem getBufferContext_mode_branch_witness :
    GetBufferContext visualModeStub =
      Except.ok "FILE_PATH:x\nCURSOR:x\nMODE:v\nVISUAL_SELECTION:x\nSELECTED_TEXT:x\n" ∧
    GetBufferContext normalModeStub =
      Except.ok "FILE_PATH:x\nCURSOR:x\nMODE:n\nCURRENT_LINE:x\n" := by
  constructor
  · have h := ((getBufferContext_mode_branch visualModeStub "x" "x" "v" rfl rfl rfl).1
      "x" "x" (by decide) rfl rfl).1
    exact h.trans (congrArg Except.ok (by decide))
  · have h := ((getBufferContext_mode_branch normalModeStub "x" "x" "n" rfl rfl rfl).2
      "x" (by decide) rfl).1
    exact h.trans (congrArg Except.ok (by decide))

/-- C8: session discovery tries the environment override first, accepting it
only if a file exists there; otherwise it derives
cache-root/nvim/basename(cwd).sock — cache root from the override variable,
else the default user cache directory — accepting it only if it exists; when
neither check succeeds (or the working directory is unavailable) no other
strategy is attempted and client construction fails with the
session-not-found error. -/
theorem findNvimSocket_precedence (env : Env) :
    (env.nvim ≠ "" → env.fileExists env.nvim = true →
      findNvimSocket env = env.nvim ∧ NewNvimClient env = Except.ok ⟨env.nvim⟩) ∧
    ((env.nvim = "" ∨ env.fileExists env.nvim = false) →
      (∀ e, env.getwd = Except.error e →
        findNvimSocket env = "" ∧
        NewNvimClient env = Except.error "no Neovim instance found for current directory") ∧
      (∀ pwd, env.getwd = Except.ok pwd →
        (env.fileExists (filepathJoin
            (filepathJoin
              (if env.xdgCacheHome = "" then filepathJoin env.userHomeDir ".cache"
                else env.xdgCacheHome) "nvim")
            (filepathBase pwd ++ ".sock")) = true →
          findNvimSocket env = filepathJoin
            (filepathJoin
              (if env.xdgCacheHome = "" then filepathJoin env.userHomeDir ".cache"
                else env.xdgCacheHome) "nvim")
            (filepathBase pwd ++ ".sock")) ∧
        (env.fileExists (filepathJoin
            (filepathJoin
              (if env.xdgCacheHome = "" then filepathJoin env.userHomeDir ".cache"
                else env.xdgCacheHome) "nvim")
            (filepathBase pwd ++ ".sock")) = false →
          findNvimSocket env = "" ∧
          NewNvimClient env = Except.error "no Neovim instance found for current directory"))) := by
  have hnonempty : env.nvim ≠ "" → env.fileExists env.nvim = true →
      findNvimSocket env = env.nvim := by
    intro h1 h2
    unfold findNvimSocket
    rw [if_pos ⟨h1, h2⟩]
  constructor
  · intro h1 h2
    have hf := hnonempty h1 h2
    refine ⟨hf, ?_⟩
    unfold NewNvimClient
    rw [hf, if_neg h1]
  · intro hover
    have hcond : ¬ (env.nvim ≠ "" ∧ env.fileExists env.nvim = true) := by
      rcases hover with h | h
      · exact fun hc => hc.1 h
      · exact fun hc => by rw [h] at hc; exact Bool.false_ne_true hc.2
    constructor
    · intro e he
      have hf : findNvimSocket env = "" := by
        unfold findNvimSocket
        rw [if_neg hcond, he]
      exact ⟨hf, by simp [NewNvimClient, hf]⟩
    · intro pwd hpwd
      constructor
      · intro hex
        unfold findNvimSocket
        rw [if_neg hcond, hpwd]
        simp only [hex, if_true]
      · intro hex
        have hf : findNvimSocket env = "" := by
          unfold findNvimSocket
          rw [if_neg hcond, hpwd]
          simp only [hex, Bool.false_eq_true, if_false]
        exact ⟨hf, by simp [NewNvimClient, hf]⟩

/-- Witness for C8 at concrete environments: with the override set to an
existing file the override wins; with no override and no socket on disk the
construction fails with the session-not-found error; with no override and
the derived socket existing the derived path is used. -/
theorem findNvimSocket_precedence_witness :
    findNvimSocket ⟨"/tmp/nvim.sock", "", "/home/u", Except.ok "/home/u/proj", fun _ => true⟩ =
      "/tmp/nvim.sock" ∧
    NewNvimClient ⟨"", "", "/home/u", Except.ok "/home/u/proj", fun _ => false⟩ =
      Except.error "no Neovim instance found for current directory" ∧
    findNvimSocket ⟨"", "", "/home/u", Except.ok "/home/u/proj", fun _ => true⟩ =
      "/home/u/.cache/nvim/proj.sock" := by
  refine ⟨?_, ?_, ?_⟩
  · exact ((findNvimSocket_precedence _).1 (by decide) rfl).1
  · exact (((findNvimSocket_precedence _).2 (Or.inl rfl)).2 "/home/u/proj" rfl).2 rfl |>.2
  · exact ((((findNvimSocket_precedence _).2 (Or.inl rfl)).2 "/home/u/proj" rfl).1 rfl).trans
      (by decide)
